import Mathlib

/-!
Shallow embedding of install_deps.py, a dependency fetch-and-build script.

Python strings are modelled as lists of characters (abbrev Str) where
character-level behaviour matters (the descriptor format, the install ledger,
path handling), and as Lean String where only whole-token equality matters
(platform flags, package names in the driver loop).  Files are character
lists; the filesystem, network and subprocess layer of the main driver is
modelled by explicit per-package oracles whose outcomes are recorded in an
event trace.
-/

set_option maxRecDepth 200000

abbrev Str := List Char

/-- Whitespace set used by Python str.strip and by the regex class of
whitespace characters: space, tab, newline, carriage return, vertical tab,
form feed (ASCII range; unicode whitespace is not modelled). -/
def ws (c : Char) : Bool :=
  c = ' ' || c = '\t' || c = '\n' || c = '\r' || c = Char.ofNat 11 || c = Char.ofNat 12

/-- Python str.strip, left half: drop leading whitespace. -/
def trimLeft (l : Str) : Str := l.dropWhile ws

/-- Python str.strip: remove whitespace from both ends. -/
def trim (l : Str) : Str := ((trimLeft l).reverse.dropWhile ws).reverse

-- ===========================================================================
-- Flag resolver (install_deps.py, flags_apply, lines 312-327)
-- ===========================================================================

/-- Python str.startswith with the one-character negation marker: a first
character test. -/
def has_negation_marker : List Char → Bool
  | '!' :: _ => true
  | _ => false

/-- Tags of an option clause that carry the negation marker, marker stripped
(the slice from index one): the must_not_have list built by the loop in
flags_apply. -/
def excluded_tags (opt_flags : List (List Char)) : List (List Char) :=
  (opt_flags.filter has_negation_marker).map (fun f => f.drop 1)

/-- Tags of an option clause without the negation marker: the must_have list
built by the loop in flags_apply. -/
def required_tags (opt_flags : List (List Char)) : List (List Char) :=
  opt_flags.filter (fun f => !has_negation_marker f)

/-- flags_apply from install_deps.py.  The Python loop partitions opt_flags
into must_have and must_not_have (negation marker stripped), converts both to
sets, and returns must_not_have.isdisjoint(sys_flags) and
must_have.issubset(sys_flags).  Conversion to a set changes neither the
disjointness nor the subset check, so the two lists are used directly. -/
def flags_apply (sys_flags : List (List Char)) (opt_flags : List (List Char)) : Bool :=
  (excluded_tags opt_flags).all (fun f => !(sys_flags.contains f)) &&
  (required_tags opt_flags).all (fun f => sys_flags.contains f)

-- ===========================================================================
-- Character-level utilities shared by the descriptor format and the ledger
-- ===========================================================================

/-- Split a character list at the first occurrence of c, the failing version:
models Python str.index plus the two slices around the found position; none
models the ValueError raised when c does not occur. -/
def splitFirst (c : Char) : Str → Option (Str × Str)
  | [] => none
  | x :: xs =>
    if x = c then some ([], xs)
    else (splitFirst c xs).map (fun p => (x :: p.1, p.2))

/-- Python str.split with a one-character separator: always returns at least
one piece, the empty string splits to one empty piece. -/
def splitOnChar (c : Char) : Str → List Str
  | [] => [[]]
  | x :: xs =>
    if x = c then [] :: splitOnChar c xs
    else
      match splitOnChar c xs with
      | [] => [[x]]
      | l :: ls => (x :: l) :: ls

/-- Python file readlines: split after every newline, keeping the newline at
the end of each piece; a final piece without a newline is kept, and the empty
file yields no lines. -/
def splitLines : Str → List Str
  | [] => []
  | c :: cs =>
    if c = '\n' then ['\n'] :: splitLines cs
    else
      match splitLines cs with
      | [] => [[c]]
      | l :: ls => (c :: l) :: ls

/-- Python str.split with no separator: split on whitespace runs, dropping
empty pieces.  The first argument accumulates the current word reversed. -/
def splitWSAux : Str → Str → List Str
  | [], acc => if acc.isEmpty then [] else [acc.reverse]
  | c :: cs, acc =>
    if ws c then
      if acc.isEmpty then splitWSAux cs [] else acc.reverse :: splitWSAux cs []
    else splitWSAux cs (c :: acc)

def splitWS (l : Str) : List Str := splitWSAux l []

/-- Does the second list start with the first list. -/
def starts_with_chars : Str → Str → Bool
  | [], _ => true
  | _ :: _, [] => false
  | a :: as, b :: bs => a = b && starts_with_chars as bs

/-- Python substring containment, needle in haystack. -/
def contains_sub (needle : Str) : Str → Bool
  | [] => starts_with_chars needle []
  | hay@(_ :: rest) => starts_with_chars needle hay || contains_sub needle rest

-- ===========================================================================
-- Decimal rendering and parsing of the ledger hash field
-- ===========================================================================

def digitChar : Nat → Char
  | 0 => '0' | 1 => '1' | 2 => '2' | 3 => '3' | 4 => '4'
  | 5 => '5' | 6 => '6' | 7 => '7' | 8 => '8' | _ => '9'

/-- Decimal rendering of a natural number, fuel-based so that it reduces in
the kernel; the fuel n+1 always exceeds the number of digits of n. -/
def natToCharsCore : Nat → Nat → List Char → List Char
  | 0, _, acc => acc
  | fuel+1, n, acc =>
    if n < 10 then digitChar n :: acc
    else natToCharsCore fuel (n / 10) (digitChar (n % 10) :: acc)

/-- Python decimal formatting of a nonnegative integer, as written by the
ledger line format string. -/
def natToChars (n : Nat) : List Char := natToCharsCore (n + 1) n []

/-- Recursion-friendly specification of natToChars, used only in proofs. -/
def natToCharsSpec (n : Nat) : List Char :=
  if _h : n < 10 then [digitChar n]
  else natToCharsSpec (n / 10) ++ [digitChar (n % 10)]
  decreasing_by exact Nat.div_lt_self (by omega) (by omega)

def charVal (c : Char) : Option Nat :=
  if '0' ≤ c ∧ c ≤ '9' then some (c.toNat - 48) else none

def parseNatAux : List Char → Nat → Option Nat
  | [], acc => some acc
  | c :: cs, acc =>
    match charVal c with
    | some d => parseNatAux cs (acc * 10 + d)
    | none => none

/-- Digits-only natural number literal; none on the empty string. -/
def parseNat (l : List Char) : Option Nat :=
  match l with
  | [] => none
  | _ :: _ => parseNatAux l 0

/-- Python int() applied to an already stripped string: an optional single
sign followed by at least one decimal digit.  Underscore digit grouping,
which Python also accepts, is not modelled. -/
def parseInt (l : List Char) : Option Int :=
  match l with
  | [] => none
  | c :: rest =>
    if c = '+' then (parseNat rest).map (fun n => (n : Int))
    else if c = '-' then (parseNat rest).map (fun n => -(n : Int))
    else (parseNat (c :: rest)).map (fun n => (n : Int))

-- ===========================================================================
-- zlib.crc32: standard CRC-32, reflected polynomial 0xEDB88320,
-- initial value and final mask 0xFFFFFFFF
-- ===========================================================================

def crc32_step (c : Nat) : Nat :=
  if c % 2 = 1 then (c / 2) ^^^ 0xEDB88320 else c / 2

def crc32_rounds : Nat → Nat → Nat
  | c, 0 => c
  | c, k+1 => crc32_rounds (crc32_step c) k

def crc32_update (c b : Nat) : Nat := crc32_rounds (c ^^^ b) 8

def crc32 (bytes : List Nat) : Nat :=
  (bytes.foldl crc32_update 0xFFFFFFFF) ^^^ 0xFFFFFFFF

/-- Python str.encode: UTF-8 bytes.  Modelled as the character codepoints,
which agrees with UTF-8 on the ASCII strings handled here. -/
def encode (s : Str) : List Nat := s.map Char.toNat

-- ===========================================================================
-- Install ledger (install_deps.py, write_success and is_installed)
-- ===========================================================================

/-- One ledger line as written by write_success: name, colon, decimal crc32
hash, newline. -/
def entry_line (name : Str) (h : Nat) : Str :=
  name ++ ':' :: natToChars h ++ ['\n']

/-- write_success: append one name:hash line to the ledger file, where the
hash is zlib.crc32 of the encoded source url. -/
def write_success (name src : Str) (file : Str) : Str :=
  file ++ entry_line name (crc32 (encode src))

/-- One iteration of the scan loop in is_installed, factored out: some true
means the line matches and the function returns True, some false means the
line raised (missing or unparsable hash field on a name match) and the
enclosing handler returns False, none means the loop moves on. -/
def line_result (name : Str) (srchash : Nat) (l : Str) : Option Bool :=
  match (splitOnChar ':' l).map trim with
  | [] => some false
  | p0 :: restP =>
    if p0 = name then
      match restP with
      | [] => some false
      | p1 :: _ =>
        match parseInt p1 with
        | none => some false
        | some v => if (srchash : Int) = v then some true else none
    else none

/-- The scan loop of is_installed over the list of ledger lines.  Python
splits each line on the colon, strips every piece, compares the stored name
with the first piece and, only when that matches, parses the second piece as
an integer and compares it with the crc32 hash; an exception anywhere makes
the whole function return False. -/
def scan_lines (name : Str) (srchash : Nat) : List Str → Bool
  | [] => false
  | l :: rest =>
    match (splitOnChar ':' l).map trim with
    | [] => false
    | p0 :: restP =>
      if p0 = name then
        match restP with
        | [] => false
        | p1 :: _ =>
          match parseInt p1 with
          | none => false
          | some v => if (srchash : Int) = v then true else scan_lines name srchash rest
      else scan_lines name srchash rest

/-- is_installed: none for the ledger file models a missing or unreadable
file (the open call raises and the handler returns False). -/
def is_installed (name src : Str) (file : Option Str) : Bool :=
  match file with
  | none => false
  | some f => scan_lines name (crc32 (encode src)) (splitLines f)

-- ===========================================================================
-- Descriptor parser (install_deps.py, class DepFileParser)
-- ===========================================================================

/-- Attribute content: a single string or a list of strings, exactly the two
shapes stored into the record dictionary. -/
inductive Value where
  | scalar (s : Str)
  | vlist (items : List Str)
deriving DecidableEq, Repr

/-- One record: insertion-ordered key to value mapping (a Python dict). -/
abbrev Record := List (Str × Value)

/-- Python dict assignment: overwrite in place if the key exists, append
otherwise. -/
def setAttr (r : Record) (k : Str) (v : Value) : Record :=
  if r.any (fun kv => kv.1 = k) then
    r.map (fun kv => if kv.1 = k then (k, v) else kv)
  else r ++ [(k, v)]

/-- Parser state: finished records, the record being accumulated, the lines
not yet consumed, and the running line counter (starts at 1, incremented by
every take_line). -/
structure PState where
  all : List Record
  current : Record
  lines : List Str
  line_no : Nat
deriving DecidableEq, Repr

/-- Parse failure: malformed carries the value of line_no at the moment the
message is built together with the raw text of the offending line (the
Malformed attribute line message); assertionFailed models the uncaught
assert on a header line with no name token. -/
inductive PErr where
  | malformed (lineNo : Nat) (line : Str)
  | assertionFailed
deriving DecidableEq, Repr

/-- flush: push the current record onto the output if it is nonempty. -/
def flushRec (current : Record) : List Record :=
  if current.isEmpty then [] else [current]

/-- The continuation loop inside handle_attrib: consume lines while the next
line starts with whitespace and is not blank, collecting their stripped text.
Returns the collected items, the remaining lines, and the updated counter. -/
def consume_cont : List Str → Nat → List Str × List Str × Nat
  | [], n => ([], [], n)
  | l :: rest, n =>
    if (match l with | c :: _ => ws c | [] => false) && !(trim l).isEmpty then
      let r := consume_cont rest (n + 1)
      (trim l :: r.1, r.2.1, r.2.2)
    else ([], l :: rest, n)

/-- handle_attrib: take the line, split at the first colon, strip both sides
and drop empty pieces; the first remaining piece is the attribute name, a
second piece is an inline scalar value; then consume continuation lines; a
scalar attribute with consumed continuations fails the assert that the
content array has a single element, and every exception in the body is
reported as a malformed attribute line carrying the current line counter. -/
def handle_attrib (st : PState) : Except PErr PState :=
  match st.lines with
  | [] => .error .assertionFailed
  | line :: rest =>
    let ln := st.line_no + 1
    match splitFirst ':' line with
    | none => .error (.malformed ln line)
    | some (lft, rgt) =>
      match [trim lft, trim rgt].filter (fun i => !i.isEmpty) with
      | [] => .error (.malformed ln line)
      | attrib_name :: restParts =>
        let inline : List Str × Bool :=
          match restParts with
          | [] => ([], true)
          | v :: _ => ([v], false)
        let r := consume_cont rest ln
        let content := inline.1 ++ r.1
        if inline.2 then
          .ok { st with current := setAttr st.current attrib_name (.vlist content),
                        lines := r.2.1, line_no := r.2.2 }
        else
          match content with
          | [v] =>
            .ok { st with current := setAttr st.current attrib_name (.scalar v),
                          lines := r.2.1, line_no := r.2.2 }
          | _ => .error (.malformed r.2.2 line)

/-- handle_line: skip blank lines and comment lines, flush and restart on a
header line (dash, then the first whitespace token is the record name, assert
that there is one), otherwise treat the line as an attribute line. -/
def handle_line (st : PState) : Except PErr PState :=
  match st.lines with
  | [] => .ok st
  | line :: rest =>
    if (trim line).isEmpty then
      .ok { st with lines := rest, line_no := st.line_no + 1 }
    else if line.head? = some '#' then
      .ok { st with lines := rest, line_no := st.line_no + 1 }
    else if line.head? = some '-' then
      match splitWS (line.drop 1) with
      | [] => .error .assertionFailed
      | nm :: _ =>
        .ok { all := st.all ++ flushRec st.current,
              current := [(("name").data, Value.scalar nm)],
              lines := rest, line_no := st.line_no + 1 }
    else handle_attrib st

/-- The parse loop: handle_line while lines remain, then a final flush.  The
fuel argument only bounds the iteration count; every iteration on a nonempty
line list consumes at least one line, so fuel equal to the number of lines
(as passed by parse) never runs out. -/
def parse_run : Nat → PState → Except PErr (List Record)
  | fuel, st =>
    match st.lines with
    | [] => .ok (st.all ++ flushRec st.current)
    | _ :: _ =>
      match fuel with
      | 0 => .ok (st.all ++ flushRec st.current)
      | f + 1 =>
        match handle_line st with
        | .error e => .error e
        | .ok st' => parse_run f st'

/-- parse: read all lines of the file and run the loop from the initial
state. -/
def parse (content : Str) : Except PErr (List Record) :=
  parse_run (splitLines content).length { all := [], current := [], lines := splitLines content, line_no := 1 }

-- ===========================================================================
-- find_shortest_path_to (install_deps.py, lines 443-464)
-- ===========================================================================

/-- Python os.pathsep on the POSIX platforms this script targets: the PATH
list separator, a colon.  Note this is not os.sep, the path separator. -/
def os_pathsep : Char := ':'

/-- The sort key of find_shortest_path_to: the length of the split of the
path on os.pathsep. -/
def sort_key (x : Str) : Nat := (splitOnChar os_pathsep x).length

/-- Stable insertion of one element into a key-sorted list: placed before
the first element with a key not smaller than its own. -/
def insert_by_key (key : Str → Nat) (x : Str) : List Str → List Str
  | [] => [x]
  | y :: ys => if key x ≤ key y then x :: y :: ys else y :: insert_by_key key x ys

/-- Stable sort by key, modelling Python list.sort(key=...): elements with
equal keys keep their original relative order. -/
def sort_by_key (key : Str → Nat) : List Str → List Str
  | [] => []
  | x :: xs => insert_by_key key x (sort_by_key key xs)

/-- find_shortest_path_to.  The pl argument is the concatenation of the three
recursive glob results (pattern as given, uppercased, lowercased) in
discovery order; the filesystem walk itself is outside the model.  Paths
containing any excluded substring are filtered out, the remainder is sorted
by the length of the os.pathsep split, and the first element is returned;
none models the IndexError raised on an empty list. -/
def find_shortest_path_to (pl : List Str) (exclude : List Str) : Option Str :=
  let pl := pl.filter (fun p => exclude.all (fun e => !(contains_sub e p)))
  (sort_by_key sort_key pl).head?

-- ===========================================================================
-- Main driver loop (install_deps.py, lines 704-756)
-- ===========================================================================

def PKGType_CMAKE : String := "cmake"
def PKGType_HEADER_ONLY : String := "header"
def PKGType_CONFIGURE : String := "config/make"
def PKGType_BJAM : String := "boost"

/-- The keys of the build_mapper dictionary. -/
def known_types : List String :=
  [PKGType_CMAKE, PKGType_HEADER_ONLY, PKGType_CONFIGURE, PKGType_BJAM]

/-- One package of the descriptor list together with the oracle outcomes of
its interactions with the outside world: whether the ledger already lists it,
whether its archive is already cached nonempty, and whether the download,
unpack, build strategy and license search succeed. -/
structure PkgSpec where
  name : String
  ptype : String
  installed : Bool
  cached : Bool
  download_ok : Bool
  unpack_ok : Bool
  build_ok : Bool
  license_found : Bool
deriving DecidableEq, Repr

/-- Observable side effects of the driver loop, in program order.  mkdirs
stands for the four makedirs calls plus the log file creation. -/
inductive Ev where
  | skip (name : String)
  | mkdirs (name : String)
  | download (name : String)
  | unpack (name : String)
  | build (name : String)
  | attrib (name : String)
  | attrib_warn (name : String)
  | rmtree (name : String)
  | commit (name : String)
deriving DecidableEq, Repr

inductive RunErr where
  | download_fail (name : String)
  | unpack_fail (name : String)
  | unknown_type (name ptype : String)
  | build_fail (name : String)
deriving DecidableEq, Repr

/-- Global mutable state of the driver: the event trace and the failed
list. -/
structure RunState where
  trace : List Ev
  failed : List String
deriving DecidableEq, Repr

/-- find_write_attribution: its whole body is wrapped in a try and every
exception, in particular the failed license search, only prints a warning,
so the call is total and reduces to one of two events. -/
def find_write_attribution (p : PkgSpec) : Ev :=
  if p.license_found then .attrib p.name else .attrib_warn p.name

/-- One iteration of the driver loop.  Mirrors the Python control flow: skip
when installed and not forced; create directories and the log; download when
the cache misses (an exception here propagates uncaught); unpack (also
uncaught); dispatch on the type through build_mapper inside a try whose
handler removes the package directory, appends the name to the failed list
and re-raises (a missing type key raises before any strategy runs); then
attribution, directory cleanup, ledger commit. -/
def process_package (force : Bool) (p : PkgSpec) (st : RunState) :
    Except (RunErr × RunState) RunState :=
  if p.installed && !force then
    .ok { st with trace := st.trace ++ [.skip p.name] }
  else
    let t0 := st.trace ++ [.mkdirs p.name]
    if !p.cached && !p.download_ok then
      .error (.download_fail p.name, { st with trace := t0 })
    else
      let t1 := if p.cached then t0 else t0 ++ [.download p.name]
      if !p.unpack_ok then
        .error (.unpack_fail p.name, { st with trace := t1 })
      else
        let t2 := t1 ++ [.unpack p.name]
        if !(known_types.contains p.ptype) then
          .error (.unknown_type p.name p.ptype,
                  { trace := t2 ++ [.rmtree p.name], failed := st.failed ++ [p.name] })
        else if !p.build_ok then
          .error (.build_fail p.name,
                  { trace := t2 ++ [.build p.name, .rmtree p.name],
                    failed := st.failed ++ [p.name] })
        else
          .ok { st with
                trace := t2 ++ [.build p.name, find_write_attribution p,
                                .rmtree p.name, .commit p.name] }

/-- The driver loop over the descriptor list.  An exception from an iteration
propagates out of the for loop and terminates the run; the error carries the
state at that moment. -/
def main_loop (force : Bool) : List PkgSpec → RunState → Except (RunErr × RunState) RunState
  | [], st => .ok st
  | p :: ps, st =>
    match process_package force p st with
    | .error e => .error e
    | .ok st' => main_loop force ps st'

theorem flags_apply_iff (sys_flags opt_flags : List (List Char)) :
    flags_apply sys_flags opt_flags = true ↔
      ((∀ f ∈ excluded_tags opt_flags, f ∉ sys_flags) ∧
       (∀ f ∈ required_tags opt_flags, f ∈ sys_flags)) := by
  simp [flags_apply, List.all_eq_true, List.elem_iff]

-- ===========================================================================
-- Claim theorems
-- ===========================================================================

/-- C1: the claim states that a package whose fetch, unpack or build step
fails is the only one aborted, with its directory removed, its name recorded
and the loop moving on.  The code instead re-raises out of the loop: this
theorem evaluates the driver on a two-package list whose first build fails
(the run ends in an error carrying only the events of the first package, with no
event of the second package) and on a two-package list whose first download
fails (the run ends with no directory removal and an empty failed list). -/
theorem C1_per_package_failure_eval :
    main_loop false
      [⟨"alpha", "cmake", false, false, true, true, false, true⟩,
       ⟨"beta", "cmake", false, false, true, true, true, true⟩] ⟨[], []⟩ =
      .error (.build_fail "alpha",
        ⟨[.mkdirs "alpha", .download "alpha", .unpack "alpha",
          .build "alpha", .rmtree "alpha"], ["alpha"]⟩) ∧
    main_loop false
      [⟨"gamma", "cmake", false, false, false, true, true, true⟩,
       ⟨"beta", "cmake", false, false, true, true, true, true⟩] ⟨[], []⟩ =
      .error (.download_fail "gamma", ⟨[.mkdirs "gamma"], []⟩) :=
  ⟨rfl, rfl⟩

/-- C3 counterexample: a package with the unknown type meson is downloaded
and unpacked before anything fails, so the run does not abort before network
or filesystem side effects as claimed. -/
theorem C3_unknown_type_counterexample :
    main_loop false [⟨"delta", "meson", false, false, true, true, true, true⟩] ⟨[], []⟩ =
      .error (.unknown_type "delta" "meson",
        ⟨[.mkdirs "delta", .download "delta", .unpack "delta", .rmtree "delta"],
         ["delta"]⟩) ∧
    Ev.download "delta" ∈
      [Ev.mkdirs "delta", Ev.download "delta", Ev.unpack "delta", Ev.rmtree "delta"] :=
  ⟨rfl, by simp⟩

/-- C3 amended: a descriptor whose type is not one of the four known kinds is
not rejected up front; its directories are created, its archive fetched when
not cached and unpacked, and the failure only occurs at build-strategy
dispatch (the missing dictionary key), after which the package directory is
removed, the name is appended to the failure list, and the whole run
aborts. -/
theorem C3_unknown_type_amended (force : Bool) (p : PkgSpec) (st : RunState)
    (ps : List PkgSpec)
    (hinst : p.installed = false)
    (hdl : p.cached = true ∨ p.download_ok = true)
    (hun : p.unpack_ok = true)
    (hty : p.ptype ∉ known_types) :
    process_package force p st =
      .error (.unknown_type p.name p.ptype,
        ⟨st.trace ++ [.mkdirs p.name] ++
           (if p.cached then [] else [.download p.name]) ++
           [.unpack p.name, .rmtree p.name],
         st.failed ++ [p.name]⟩) ∧
    main_loop force (p :: ps) st =
      .error (.unknown_type p.name p.ptype,
        ⟨st.trace ++ [.mkdirs p.name] ++
           (if p.cached then [] else [.download p.name]) ++
           [.unpack p.name, .rmtree p.name],
         st.failed ++ [p.name]⟩) := by
  have hmain : process_package force p st =
      .error (.unknown_type p.name p.ptype,
        ⟨st.trace ++ [.mkdirs p.name] ++
           (if p.cached then [] else [.download p.name]) ++
           [.unpack p.name, .rmtree p.name],
         st.failed ++ [p.name]⟩) := by
    rcases hdl with hc | hd
    · simp [process_package, hinst, hun, hty, hc]
    · cases hcc : p.cached
      · simp [process_package, hinst, hun, hty, hcc, hd]
      · simp [process_package, hinst, hun, hty, hcc]
  exact ⟨hmain, by rw [main_loop, hmain]⟩

/-- C3 witness: the amended theorem applied to the concrete meson package. -/
theorem C3_unknown_type_witness :
    process_package false ⟨"delta", "meson", false, false, true, true, true, true⟩ ⟨[], []⟩ =
      .error (.unknown_type "delta" "meson",
        ⟨[] ++ [.mkdirs "delta"] ++ (if false then [] else [.download "delta"]) ++
           [.unpack "delta", .rmtree "delta"], [] ++ ["delta"]⟩) :=
  (C3_unknown_type_amended false ⟨"delta", "meson", false, false, true, true, true, true⟩
    ⟨[], []⟩ [] rfl (Or.inr rfl) rfl (by decide)).1

/-- C4: the claim states that the search returns a match with the minimum
number of path-separator-delimited segments.  The sort key splits on
os.pathsep (the colon) instead of the path separator, so every ordinary path
has key one and the stable sort leaves the glob discovery order unchanged:
on a discovery list whose first match is three directories deep and whose
second is one deep, the deep one is returned even though the shallow one has
strictly fewer slash-delimited segments. -/
theorem C4_shortest_path_eval :
    find_shortest_path_to
      [("aa/bb/cc/CMakeLists.txt").data, ("dd/CMakeLists.txt").data] [] =
      some (("aa/bb/cc/CMakeLists.txt").data) ∧
    (splitOnChar '/' ("dd/CMakeLists.txt").data).length <
      (splitOnChar '/' ("aa/bb/cc/CMakeLists.txt").data).length := by
  constructor
  · rfl
  · decide

/-- C7 counterexample: an empty current tag set does not make every clause
apply; a clause requiring the tag linux does not apply to the empty tag
set. -/
theorem C7_empty_tagset_counterexample :
    flags_apply [] [("linux").data] = false := by decide

/-- C7 amended: the clause-applicability check returns true exactly when the
excluded tags are disjoint from the current tags and the required tags are a
subset of the current tags; it is a total function, and a clause with no
option flags always applies, while an empty current tag set satisfies only
clauses with no required tags. -/
theorem C7_flags_apply_amended (sys_flags opt_flags : List (List Char)) :
    (flags_apply sys_flags opt_flags = true ↔
      ((∀ f ∈ excluded_tags opt_flags, f ∉ sys_flags) ∧
       (∀ f ∈ required_tags opt_flags, f ∈ sys_flags))) ∧
    flags_apply sys_flags [] = true :=
  ⟨flags_apply_iff sys_flags opt_flags, rfl⟩

/-- C7 witness: the amended characterization applied to one concrete clause
and tag set. -/
theorem C7_flags_apply_witness : flags_apply [("linux").data] [("!windows").data] = true :=
  (C7_flags_apply_amended [("linux").data] [("!windows").data]).1.mpr (by decide)

theorem flags_apply_insert (sys_flags opt_flags : List (List Char)) (t : List Char)
    (hex : t ∉ excluded_tags opt_flags)
    (happ : flags_apply sys_flags opt_flags = true) :
    flags_apply (t :: sys_flags) opt_flags = true := by
  rw [flags_apply_iff] at happ ⊢
  obtain ⟨h1, h2⟩ := happ
  refine ⟨?_, ?_⟩
  · intro f hf
    rw [List.mem_cons]
    push_neg
    exact ⟨fun e => hex (e ▸ hf), h1 f hf⟩
  · intro f hf
    exact List.mem_cons_of_mem t (h2 f hf)

/-- C8: adding a tag t to the current tag set never makes an applying clause
stop applying unless t is among the excluded tags of the clause; an applying
clause that stops applying after adding t must exclude t; and a clause
rejected only for a missing required tag applies once its excluded tags stay
absent and its required tags are all present in the enlarged set. -/
theorem C8_flags_monotonic (sys_flags opt_flags : List (List Char)) (t : List Char)
    (_ht : t ∉ sys_flags) :
    ((t ∉ excluded_tags opt_flags → flags_apply sys_flags opt_flags = true →
        flags_apply (t :: sys_flags) opt_flags = true) ∧
     (flags_apply sys_flags opt_flags = true →
        flags_apply (t :: sys_flags) opt_flags = false →
        t ∈ excluded_tags opt_flags) ∧
     ((∀ f ∈ excluded_tags opt_flags, f ∉ t :: sys_flags) →
      (∀ f ∈ required_tags opt_flags, f ∈ t :: sys_flags) →
        flags_apply (t :: sys_flags) opt_flags = true)) := by
  refine ⟨flags_apply_insert sys_flags opt_flags t, ?_, ?_⟩
  · intro happ hfail
    by_contra hex
    rw [flags_apply_insert sys_flags opt_flags t hex happ] at hfail
    exact Bool.noConfusion hfail
  · intro h1 h2
    exact (flags_apply_iff (t :: sys_flags) opt_flags).mpr ⟨h1, h2⟩

/-- C8 witness: the third part of the monotonicity theorem at one concrete
instance, adding the missing required tag makes the clause apply. -/
theorem C8_flags_monotonic_witness : flags_apply [("b").data, ("a").data] [("b").data] = true :=
  (C8_flags_monotonic [("a").data] [("b").data] ("b").data (by decide)).2.2 (by decide) (by decide)

/-- C9: for a package whose build succeeds but whose license search finds
nothing, the attribution step only records a warning; the loop still removes
the working directory, commits the package to the ledger, leaves the failed
list untouched and continues with the remaining packages. -/
theorem C9_attribution_nonfatal (force : Bool) (p : PkgSpec) (st : RunState)
    (ps : List PkgSpec)
    (hinst : p.installed = false)
    (hdl : p.cached = true ∨ p.download_ok = true)
    (hun : p.unpack_ok = true)
    (hty : p.ptype ∈ known_types)
    (hb : p.build_ok = true)
    (hlic : p.license_found = false) :
    process_package force p st =
      .ok ⟨st.trace ++ [.mkdirs p.name] ++
             (if p.cached then [] else [.download p.name]) ++
             [.unpack p.name, .build p.name, .attrib_warn p.name,
              .rmtree p.name, .commit p.name],
           st.failed⟩ ∧
    main_loop force (p :: ps) st =
      main_loop force ps
        ⟨st.trace ++ [.mkdirs p.name] ++
           (if p.cached then [] else [.download p.name]) ++
           [.unpack p.name, .build p.name, .attrib_warn p.name,
            .rmtree p.name, .commit p.name],
         st.failed⟩ := by
  have hmain : process_package force p st =
      .ok ⟨st.trace ++ [.mkdirs p.name] ++
             (if p.cached then [] else [.download p.name]) ++
             [.unpack p.name, .build p.name, .attrib_warn p.name,
              .rmtree p.name, .commit p.name],
           st.failed⟩ := by
    rcases hdl with hc | hd
    · simp [process_package, hinst, hun, hty, hb, hc, find_write_attribution, hlic]
    · cases hcc : p.cached
      · simp [process_package, hinst, hun, hty, hb, hcc, hd,
              find_write_attribution, hlic]
      · simp [process_package, hinst, hun, hty, hb, hcc,
              find_write_attribution, hlic]
  exact ⟨hmain, by rw [main_loop, hmain]⟩

/-- C9 witness: the concrete header-only package with a cached archive and no
license file is committed and the loop moves on. -/
theorem C9_attribution_nonfatal_witness :
    process_package false ⟨"eps", "header", false, true, true, true, true, false⟩ ⟨[], []⟩ =
      .ok ⟨[] ++ [.mkdirs "eps"] ++ (if true then [] else [.download "eps"]) ++
             [.unpack "eps", .build "eps", .attrib_warn "eps",
              .rmtree "eps", .commit "eps"], []⟩ :=
  (C9_attribution_nonfatal false ⟨"eps", "header", false, true, true, true, true, false⟩
    ⟨[], []⟩ [] rfl (Or.inl rfl) rfl (by decide) rfl rfl).1

/-- C2 counterexample: an attribute line with an inline scalar value followed
by one indented continuation line does not become a two-element list; the
parser raises a malformed attribute line error (the assert that the content
array is a singleton fails), with the line counter already advanced past the
continuation line. -/
theorem C2_scalar_continuation_counterexample :
    parse ("k : v\n w\n").data = .error (.malformed 3 ("k : v\n").data) := rfl

/-- C2 amended: for an attribute line whose two sides around the first colon
are both nonempty after stripping, the parser still consumes the whitespace
indented nonblank continuation lines that follow; if at least one was
consumed the attribute is not stored at all and parsing fails with a
malformed attribute line error carrying the advanced line counter and the
raw attribute line, and only when none follow is the single inline string
stored as a scalar. -/
theorem C2_scalar_continuation_amended (st : PState) (line : Str) (rest : List Str)
    (lft rgt : Str)
    (hl : st.lines = line :: rest)
    (hs : splitFirst ':' line = some (lft, rgt))
    (h1 : trim lft ≠ [])
    (h2 : trim rgt ≠ [])
    (h3 : trim line ≠ [])
    (h4 : line.head? ≠ some '#')
    (h5 : line.head? ≠ some '-') :
    ((consume_cont rest (st.line_no + 1)).1 ≠ [] →
        handle_line st = .error (.malformed (consume_cont rest (st.line_no + 1)).2.2 line)) ∧
    ((consume_cont rest (st.line_no + 1)).1 = [] →
        handle_line st =
          .ok { st with current := setAttr st.current (trim lft) (.scalar (trim rgt)),
                        lines := (consume_cont rest (st.line_no + 1)).2.1,
                        line_no := (consume_cont rest (st.line_no + 1)).2.2 }) := by
  have he1 : (trim lft).isEmpty = false := by
    cases hx : trim lft with
    | nil => exact absurd hx h1
    | cons a as => rfl
  have he2 : (trim rgt).isEmpty = false := by
    cases hx : trim rgt with
    | nil => exact absurd hx h2
    | cons a as => rfl
  have he3 : (trim line).isEmpty = false := by
    cases hx : trim line with
    | nil => exact absurd hx h3
    | cons a as => rfl
  have hattr : handle_line st = handle_attrib st := by
    rw [handle_line, hl]
    simp [he3, h4, h5]
  constructor
  · intro hne
    rcases hc : (consume_cont rest (st.line_no + 1)) with ⟨items, rem, ln2⟩
    rw [hc] at hne
    simp only at hne
    cases items with
    | nil => exact absurd rfl hne
    | cons i is =>
      rw [hattr, handle_attrib, hl]
      simp only [hs, List.filter, he1, he2, hc]
      rfl
  · intro hnil
    rcases hc : (consume_cont rest (st.line_no + 1)) with ⟨items, rem, ln2⟩
    rw [hc] at hnil
    simp only at hnil
    subst hnil
    rw [hattr, handle_attrib, hl]
    simp only [hs, List.filter, he1, he2, hc]
    rfl

/-- C2 witness: the amended theorem at the concrete two-line input of the
counterexample. -/
theorem C2_scalar_continuation_witness :
    handle_line ⟨[], [], [("k : v\n").data, (" w\n").data], 1⟩ =
      .error (.malformed 3 ("k : v\n").data) :=
  (C2_scalar_continuation_amended ⟨[], [], [("k : v\n").data, (" w\n").data], 1⟩
      (("k : v\n").data) [(" w\n").data] (("k ").data) ((" v\n").data)
      rfl (by decide) (by decide) (by decide) (by decide) (by decide) (by decide)).1
    (by decide)

/-- C6 counterexample: on the one-line input x with no colon, the parser
fails with a malformed attribute line error whose recorded number is 2, not
the 1-based number 1 of the offending line, because take_line increments the
counter before the message is built. -/
theorem C6_line_number_counterexample :
    parse ("x\n").data = .error (.malformed 2 ("x\n").data) ∧
    parse ("x\n").data ≠ .error (.malformed 1 ("x\n").data) := by
  refine ⟨rfl, fun h => ?_⟩
  have h2 : PErr.malformed 2 (("x\n").data) = PErr.malformed 1 (("x\n").data) :=
    Except.error.inj ((rfl : parse ("x\n").data =
      .error (.malformed 2 ("x\n").data)).symm.trans h)
  injection h2 with ha hb
  exact absurd ha (by decide)

/-- C6 amended: a nonblank noncomment nonheader line with no colon, or whose
two sides around the first colon are both blank, makes the parser fail with a
malformed attribute line error carrying the raw line text and one plus the
1-based line number of the line (the counter has already been advanced past
it), and the whole parse aborts with that error, producing no records. -/
theorem C6_malformed_line_amended (fuel : Nat) (st : PState) (line : Str)
    (rest : List Str)
    (hl : st.lines = line :: rest)
    (h3 : trim line ≠ [])
    (h4 : line.head? ≠ some '#')
    (h5 : line.head? ≠ some '-')
    (hm : splitFirst ':' line = none ∨
          ∃ lft rgt, splitFirst ':' line = some (lft, rgt) ∧
            trim lft = [] ∧ trim rgt = []) :
    handle_line st = .error (.malformed (st.line_no + 1) line) ∧
    parse_run (fuel + 1) st = .error (.malformed (st.line_no + 1) line) := by
  have he3 : (trim line).isEmpty = false := by
    cases hx : trim line with
    | nil => exact absurd hx h3
    | cons a as => rfl
  have hattr : handle_line st = handle_attrib st := by
    rw [handle_line, hl]
    simp [he3, h4, h5]
  have herr : handle_line st = .error (.malformed (st.line_no + 1) line) := by
    rcases hm with hnone | ⟨lft, rgt, hsome, hlft, hrgt⟩
    · rw [hattr, handle_attrib, hl]
      simp [hnone]
    · rw [hattr, handle_attrib, hl]
      simp only [hsome, List.filter, hlft, hrgt]
      rfl
  refine ⟨herr, ?_⟩
  rw [parse_run, hl]
  simp only
  rw [herr]

/-- C6 witness: the amended theorem at the concrete one-line colonless
input. -/
theorem C6_malformed_line_witness :
    handle_line ⟨[], [], [("x\n").data], 1⟩ = .error (.malformed 2 ("x\n").data) ∧
    parse_run 1 ⟨[], [], [("x\n").data], 1⟩ = .error (.malformed 2 ("x\n").data) :=
  C6_malformed_line_amended 0 ⟨[], [], [("x\n").data], 1⟩ (("x\n").data) []
    rfl (by decide) (by decide) (by decide) (Or.inl (by decide))

-- ===========================================================================
-- Lemmas about decimal rendering, stripping and line splitting, used by the
-- ledger claims
-- ===========================================================================

theorem natToCharsCore_eq_spec (fuel : Nat) :
    ∀ n acc, n < fuel → natToCharsCore fuel n acc = natToCharsSpec n ++ acc := by
  induction fuel with
  | zero => intro n acc h; omega
  | succ f ih =>
    intro n acc h
    rw [natToCharsCore]
    by_cases h10 : n < 10
    · rw [if_pos h10]
      unfold natToCharsSpec
      rw [dif_pos h10]
      rfl
    · have hdiv : n / 10 < n := Nat.div_lt_self (by omega) (by omega)
      rw [if_neg h10, ih (n / 10) _ (by omega)]
      conv_rhs => rw [natToCharsSpec]
      rw [dif_neg h10]
      simp

theorem natToChars_eq_spec (n : Nat) : natToChars n = natToCharsSpec n := by
  rw [natToChars, natToCharsCore_eq_spec (n + 1) n [] (by omega)]
  simp

theorem digitChar_bounds (d : Nat) :
    48 ≤ (digitChar d).toNat ∧ (digitChar d).toNat ≤ 57 := by
  unfold digitChar
  split <;> decide

theorem natToCharsSpec_digits (n : Nat) :
    ∀ c ∈ natToCharsSpec n, 48 ≤ c.toNat ∧ c.toNat ≤ 57 := by
  induction n using Nat.strong_induction_on with
  | _ n ih =>
    intro c hc
    rw [natToCharsSpec] at hc
    split at hc
    · rw [List.mem_singleton] at hc
      exact hc ▸ digitChar_bounds n
    · rw [List.mem_append] at hc
      rcases hc with hc | hc
      · exact ih (n / 10) (Nat.div_lt_self (by omega) (by omega)) c hc
      · rw [List.mem_singleton] at hc
        exact hc ▸ digitChar_bounds (n % 10)

theorem natToChars_digits (n : Nat) :
    ∀ c ∈ natToChars n, 48 ≤ c.toNat ∧ c.toNat ≤ 57 :=
  natToChars_eq_spec n ▸ natToCharsSpec_digits n

theorem natToCharsSpec_ne_nil (n : Nat) : natToCharsSpec n ≠ [] := by
  rw [natToCharsSpec]
  split <;> simp

theorem natToChars_ne_nil (n : Nat) : natToChars n ≠ [] :=
  natToChars_eq_spec n ▸ natToCharsSpec_ne_nil n

theorem natToChars_no_colon (n : Nat) : (':') ∉ natToChars n := by
  intro h
  have hb := natToChars_digits n _ h
  have hc : (':').toNat = 58 := rfl
  omega

theorem ws_of_digit (c : Char) (h1 : 48 ≤ c.toNat) (h2 : c.toNat ≤ 57) :
    ws c = false := by
  have n1 : c ≠ ' ' := fun e => by subst e; exact absurd h1 (by decide)
  have n2 : c ≠ '\t' := fun e => by subst e; exact absurd h1 (by decide)
  have n3 : c ≠ '\n' := fun e => by subst e; exact absurd h1 (by decide)
  have n4 : c ≠ '\r' := fun e => by subst e; exact absurd h1 (by decide)
  have n5 : c ≠ Char.ofNat 11 := fun e => by subst e; exact absurd h1 (by decide)
  have n6 : c ≠ Char.ofNat 12 := fun e => by subst e; exact absurd h1 (by decide)
  simp [ws, n1, n2, n3, n4, n5, n6]

theorem natToChars_no_ws (n : Nat) : ∀ c ∈ natToChars n, ws c = false := by
  intro c hc
  have hb := natToChars_digits n c hc
  exact ws_of_digit c hb.1 hb.2

theorem dropWhile_ws_eq_self (l : Str) (h : ∀ c ∈ l, ws c = false) :
    l.dropWhile ws = l := by
  cases l with
  | nil => rfl
  | cons c cs =>
    rw [List.dropWhile_cons, h c (List.mem_cons_self c cs)]
    simp

theorem trim_eq_self (l : Str) (h : ∀ c ∈ l, ws c = false) : trim l = l := by
  unfold trim trimLeft
  rw [dropWhile_ws_eq_self l h,
      dropWhile_ws_eq_self l.reverse (fun c hc => h c (List.mem_reverse.mp hc)),
      List.reverse_reverse]

theorem trim_append_newline (l : Str) (hne : l ≠ []) (h : ∀ c ∈ l, ws c = false) :
    trim (l ++ ['\n']) = l := by
  unfold trim trimLeft
  have h1 : (l ++ ['\n']).dropWhile ws = l ++ ['\n'] := by
    cases l with
    | nil => exact absurd rfl hne
    | cons c cs =>
      rw [List.cons_append, List.dropWhile_cons, h c (List.mem_cons_self c cs)]
      simp
  rw [h1, List.reverse_append]
  have h2 : (['\n'] : Str).reverse ++ l.reverse = '\n' :: l.reverse := rfl
  rw [h2, List.dropWhile_cons]
  have h3 : ws '\n' = true := rfl
  rw [h3]
  simp only [if_true]
  rw [dropWhile_ws_eq_self l.reverse (fun c hc => h c (List.mem_reverse.mp hc)),
      List.reverse_reverse]

theorem charVal_digitChar (d : Nat) (h : d < 10) : charVal (digitChar d) = some d := by
  interval_cases d <;> decide

theorem parseNatAux_append (xs ys : List Char) (a : Nat) :
    parseNatAux (xs ++ ys) a =
      match parseNatAux xs a with
      | some b => parseNatAux ys b
      | none => none := by
  induction xs generalizing a with
  | nil => simp [parseNatAux]
  | cons c cs ih =>
    rw [List.cons_append, parseNatAux]
    cases h : charVal c with
    | none => simp [parseNatAux, h]
    | some d => simp [parseNatAux, h, ih]

theorem parseNatAux_spec (n : Nat) :
    ∀ a, parseNatAux (natToCharsSpec n) a =
      some (a * 10 ^ (natToCharsSpec n).length + n) := by
  induction n using Nat.strong_induction_on with
  | _ n ih =>
    intro a
    by_cases h10 : n < 10
    · rw [natToCharsSpec, dif_pos h10]
      simp [parseNatAux, charVal_digitChar n h10]
    · have hdiv : n / 10 < n := Nat.div_lt_self (by omega) (by omega)
      rw [natToCharsSpec, dif_neg h10]
      rw [parseNatAux_append, ih (n / 10) hdiv a]
      simp only [parseNatAux, charVal_digitChar (n % 10) (by omega)]
      have hmod : n / 10 * 10 + n % 10 = n := by omega
      rw [List.length_append, List.length_singleton, pow_succ]
      congr 1
      calc (a * 10 ^ (natToCharsSpec (n / 10)).length + n / 10) * 10 + n % 10
          = a * (10 ^ (natToCharsSpec (n / 10)).length * 10) +
              (n / 10 * 10 + n % 10) := by ring
        _ = a * (10 ^ (natToCharsSpec (n / 10)).length * 10) + n := by rw [hmod]

theorem parseNat_natToChars (n : Nat) : parseNat (natToChars n) = some n := by
  rw [natToChars_eq_spec]
  cases hs : natToCharsSpec n with
  | nil => exact absurd hs (natToCharsSpec_ne_nil n)
  | cons c cs =>
    have h := parseNatAux_spec n 0
    rw [hs] at h
    simp only [parseNat, h]
    simp

theorem parseInt_natToChars (n : Nat) : parseInt (natToChars n) = some (n : Int) := by
  cases hs : natToChars n with
  | nil => exact absurd hs (natToChars_ne_nil n)
  | cons c cs =>
    have hd := natToChars_digits n c (hs ▸ List.mem_cons_self c cs)
    have hp : c ≠ '+' := fun e => by subst e; exact absurd hd.1 (by decide)
    have hm : c ≠ '-' := fun e => by subst e; exact absurd hd.1 (by decide)
    have hparse := parseNat_natToChars n
    rw [hs] at hparse
    rw [← hs]
    rw [hs, parseInt, if_neg hp, if_neg hm, hparse]
    rfl

theorem splitOnChar_not_mem (c : Char) (l : Str) (h : c ∉ l) :
    splitOnChar c l = [l] := by
  induction l with
  | nil => rfl
  | cons x xs ih =>
    rw [splitOnChar]
    rw [if_neg (show ¬ x = c from fun e => h (by rw [← e]; exact List.mem_cons_self x xs))]
    rw [ih (fun hc => h (List.mem_cons_of_mem x hc))]

theorem splitOnChar_append (c : Char) (n r : Str) (h : c ∉ n) :
    splitOnChar c (n ++ c :: r) = n :: splitOnChar c r := by
  induction n with
  | nil => simp [splitOnChar]
  | cons x xs ih =>
    rw [List.cons_append, splitOnChar]
    rw [if_neg (show ¬ x = c from fun e => h (by rw [← e]; exact List.mem_cons_self x xs))]
    rw [ih (fun hc => h (List.mem_cons_of_mem x hc))]

theorem splitLines_append (a b : Str) (h : ('\n') ∉ a) :
    splitLines (a ++ '\n' :: b) = (a ++ ['\n']) :: splitLines b := by
  induction a with
  | nil => simp [splitLines]
  | cons c cs ih =>
    rw [List.cons_append, splitLines]
    rw [if_neg (show ¬ c = '\n' from fun e => h (by rw [← e]; exact List.mem_cons_self c cs))]
    rw [ih (fun hc => h (List.mem_cons_of_mem c hc))]
    simp

theorem scan_lines_entry (name : Str) (sh : Nat) (n : Str) (h : Nat)
    (rest : List Str) (hn : (':') ∉ n) :
    scan_lines name sh (entry_line n h :: rest) =
      if trim n = name then
        (if sh = h then true else scan_lines name sh rest)
      else scan_lines name sh rest := by
  have he : entry_line n h = n ++ ':' :: (natToChars h ++ ['\n']) := by
    simp [entry_line]
  have hnc : (':') ∉ natToChars h ++ ['\n'] := by
    intro hc
    rcases List.mem_append.mp hc with hc | hc
    · exact natToChars_no_colon h hc
    · exact absurd (List.mem_singleton.mp hc) (by decide)
  have hsplit : splitOnChar ':' (entry_line n h) = [n, natToChars h ++ ['\n']] := by
    rw [he, splitOnChar_append ':' n _ hn, splitOnChar_not_mem ':' _ hnc]
  have htrim : trim (natToChars h ++ ['\n']) = natToChars h :=
    trim_append_newline _ (natToChars_ne_nil h) (natToChars_no_ws h)
  rw [scan_lines, hsplit]
  simp only [List.map_cons, List.map_nil, htrim]
  by_cases hq : trim n = name
  · rw [if_pos hq, if_pos hq]
    simp only [parseInt_natToChars]
    by_cases hsh : sh = h
    · subst hsh
      rw [if_pos rfl, if_pos rfl]
    · rw [if_neg (show ¬((sh : Int) = (h : Int)) from fun e => hsh (by exact_mod_cast e)),
          if_neg hsh]
  · rw [if_neg hq, if_neg hq]

/-- A ledger file consisting of the rendered lines of the given committed
entries, in order: the state reachable by repeated write_success calls. -/
def render_ledger (es : List (Str × Nat)) : Str :=
  es.foldr (fun e acc => entry_line e.1 e.2 ++ acc) []

theorem entry_line_append (n : Str) (h : Nat) (tail : Str) (hn : ('\n') ∉ n) :
    splitLines (entry_line n h ++ tail) = entry_line n h :: splitLines tail := by
  have ha : entry_line n h ++ tail = (n ++ ':' :: natToChars h) ++ '\n' :: tail := by
    simp [entry_line]
  have hnl : ('\n') ∉ n ++ ':' :: natToChars h := by
    intro hc
    rcases List.mem_append.mp hc with hc | hc
    · exact hn hc
    · rcases List.mem_cons.mp hc with hc | hc
      · exact absurd hc (by decide)
      · have hb := natToChars_digits h _ hc
        have : ('\n').toNat = 10 := rfl
        omega
  rw [ha, splitLines_append _ _ hnl]
  congr 1

theorem splitLines_render (es : List (Str × Nat)) (tail : Str)
    (hok : ∀ e ∈ es, ('\n') ∉ e.1) :
    splitLines (render_ledger es ++ tail) =
      es.map (fun e => entry_line e.1 e.2) ++ splitLines tail := by
  induction es with
  | nil => simp [render_ledger]
  | cons e es ih =>
    have h1 : render_ledger (e :: es) ++ tail =
        entry_line e.1 e.2 ++ (render_ledger es ++ tail) := by
      simp [render_ledger]
    rw [h1, entry_line_append e.1 e.2 _ (hok e (List.mem_cons_self e es)),
        ih (fun x hx => hok x (List.mem_cons_of_mem e hx))]
    rfl

theorem scan_render_true (name : Str) (hash : Nat) (es : List (Str × Nat))
    (hcol : (':') ∉ name) (hname : trim name = name)
    (hok : ∀ e ∈ es, (':') ∉ e.1) :
    scan_lines name hash
      (es.map (fun e => entry_line e.1 e.2) ++ [entry_line name hash]) = true := by
  induction es with
  | nil =>
    rw [List.map_nil, List.nil_append, scan_lines_entry name hash name hash [] hcol,
        if_pos hname, if_pos rfl]
  | cons e es ih =>
    rw [List.map_cons, List.cons_append,
        scan_lines_entry name hash e.1 e.2 _ (hok e (List.mem_cons_self e es))]
    have ih2 := ih (fun x hx => hok x (List.mem_cons_of_mem e hx))
    by_cases hq : trim e.1 = name
    · rw [if_pos hq]
      by_cases hh : hash = e.2
      · rw [if_pos hh]
      · rw [if_neg hh]
        exact ih2
    · rw [if_neg hq]
      exact ih2

theorem scan_render_false (name : Str) (hash hash2 : Nat) (es : List (Str × Nat))
    (hcol : (':') ∉ name) (hname : trim name = name)
    (hok : ∀ e ∈ es, (':') ∉ e.1)
    (hne : hash2 ≠ hash)
    (hold : ∀ e ∈ es, trim e.1 = name → e.2 ≠ hash2) :
    scan_lines name hash2
      (es.map (fun e => entry_line e.1 e.2) ++ [entry_line name hash]) = false := by
  induction es with
  | nil =>
    rw [List.map_nil, List.nil_append, scan_lines_entry name hash2 name hash [] hcol,
        if_pos hname, if_neg hne]
    rfl
  | cons e es ih =>
    rw [List.map_cons, List.cons_append,
        scan_lines_entry name hash2 e.1 e.2 _ (hok e (List.mem_cons_self e es))]
    have ih2 := ih (fun x hx => hok x (List.mem_cons_of_mem e hx))
      (fun x hx hq => hold x (List.mem_cons_of_mem e hx) hq)
    by_cases hq : trim e.1 = name
    · rw [if_pos hq,
          if_neg (fun hh => hold e (List.mem_cons_self e es) hq hh.symm)]
      exact ih2
    · rw [if_neg hq]
      exact ih2

/-- C5 counterexample: the plumless and buckeroo strings are different urls
with the same crc32 checksum, so after committing the name a with url
plumless, the installed check for the same name with the different url
buckeroo also answers true, against the claim that any different url yields
false. -/
theorem C5_ledger_counterexample :
    is_installed ("a").data ("buckeroo").data
      (some (write_success ("a").data ("plumless").data [])) = true ∧
    ("buckeroo").data ≠ ("plumless").data := by
  constructor
  · decide
  · decide

/-- C5 amended: over a ledger reachable by commits (rendered entries), for a
name that is free of colons and newlines and equal to its own stripped form,
committing (name, url) makes the installed check for (name, url) true; and
the installed check for (name, url2) stays false exactly under the condition
that the crc32 hash of url2 differs from the crc32 hash of url (a plain
inequality of urls is not enough, by the counterexample) and no prior entry
stored that hash under a first field whose stripped form equals the name. -/
theorem C5_ledger_amended (entries : List (Str × Nat)) (name url url2 : Str)
    (h1 : trim name = name) (h2 : (':') ∉ name) (h3 : ('\n') ∉ name)
    (hok : ∀ e ∈ entries, (':') ∉ e.1 ∧ ('\n') ∉ e.1)
    (hnew : crc32 (encode url2) ≠ crc32 (encode url))
    (hold : ∀ e ∈ entries, trim e.1 = name → e.2 ≠ crc32 (encode url2)) :
    is_installed name url (some (write_success name url (render_ledger entries))) = true ∧
    is_installed name url2 (some (write_success name url (render_ledger entries))) = false := by
  have hfile : write_success name url (render_ledger entries) =
      render_ledger entries ++ entry_line name (crc32 (encode url)) := rfl
  have hlines : splitLines (render_ledger entries ++ entry_line name (crc32 (encode url))) =
      entries.map (fun e => entry_line e.1 e.2) ++ [entry_line name (crc32 (encode url))] := by
    have hone : splitLines (entry_line name (crc32 (encode url))) =
        [entry_line name (crc32 (encode url))] := by
      have hh := entry_line_append name (crc32 (encode url)) [] h3
      rw [List.append_nil] at hh
      exact hh
    rw [splitLines_render entries _ (fun e he => (hok e he).2), hone]
  constructor
  · show scan_lines name (crc32 (encode url))
      (splitLines (write_success name url (render_ledger entries))) = true
    rw [hfile, hlines]
    exact scan_render_true name (crc32 (encode url)) entries h2 h1
      (fun e he => (hok e he).1)
  · show scan_lines name (crc32 (encode url2))
      (splitLines (write_success name url (render_ledger entries))) = false
    rw [hfile, hlines]
    exact scan_render_false name (crc32 (encode url)) (crc32 (encode url2)) entries h2 h1
      (fun e he => (hok e he).1) hnew hold

/-- C5 witness: the amended theorem on the empty prior ledger with the
concrete name a and urls u and v, whose crc32 hashes differ. -/
theorem C5_ledger_witness :
    is_installed ("a").data ("u").data
      (some (write_success ("a").data ("u").data (render_ledger []))) = true ∧
    is_installed ("a").data ("v").data
      (some (write_success ("a").data ("u").data (render_ledger []))) = false :=
  C5_ledger_amended [] (("a").data) (("u").data) (("v").data)
    (by decide) (by decide) (by decide) (by decide) (by decide) (by decide)

theorem scan_lines_cons (name : Str) (sh : Nat) (l : Str) (rest : List Str) :
    scan_lines name sh (l :: rest) =
      match line_result name sh l with
      | some b => b
      | none => scan_lines name sh rest := by
  cases hp : (splitOnChar ':' l).map trim with
  | nil => simp [scan_lines, line_result, hp]
  | cons p0 restP =>
    by_cases hq : p0 = name
    · cases restP with
      | nil => simp [scan_lines, line_result, hp, hq]
      | cons p1 rest2 =>
        cases hi : parseInt p1 with
        | none => simp [scan_lines, line_result, hp, hq, hi]
        | some v =>
          by_cases hv : (sh : Int) = v
          · simp [scan_lines, line_result, hp, hq, hi, hv]
          · simp [scan_lines, line_result, hp, hq, hi, hv]
    · simp [scan_lines, line_result, hp, hq]

/-- C10 counterexample: a malformed first line with no colon whose text
differs from the queried name is skipped, not fatal: with the ledger file
oops newline followed by a valid entry for name a, the installed check still
returns true, against the claim that a malformed line scanned before a
matching entry forces a false answer. -/
theorem C10_malformed_skipped_counterexample :
    is_installed ("a").data ("u").data
      (some (("oops\n").data ++ write_success ("a").data ("u").data [])) = true := by
  decide

/-- C10 amended: the installed check is total by construction and returns
false when the ledger file is missing or unreadable; scanning is the scan of
the split lines; and a scanned line aborts the whole scan with false exactly
when its first colon field, stripped, equals the queried name while its hash
field is missing or does not parse as an integer — such a line placed before
any matching entry forces false, whereas a malformed line whose first field
differs from the name is skipped and scanning continues. -/
theorem C10_is_installed_amended :
    (∀ name src, is_installed name src none = false) ∧
    (∀ name src f, is_installed name src (some f) =
        scan_lines name (crc32 (encode src)) (splitLines f)) ∧
    (∀ name sh L1 mal L2, (∀ l ∈ L1, line_result name sh l = none) →
        line_result name sh mal = some false →
        scan_lines name sh (L1 ++ mal :: L2) = false) := by
  refine ⟨fun _ _ => rfl, fun _ _ _ => rfl, ?_⟩
  intro name sh L1 mal L2 hcont hmal
  induction L1 with
  | nil =>
    rw [List.nil_append, scan_lines_cons, hmal]
  | cons l L1 ih =>
    rw [List.cons_append, scan_lines_cons, hcont l (List.mem_cons_self l L1)]
    exact ih (fun x hx => hcont x (List.mem_cons_of_mem l hx))

/-- C10 witness: the abort clause of the amended theorem at a concrete scan
in which a skippable line precedes the aborting line, which itself precedes a
line that would have matched. -/
theorem C10_is_installed_witness :
    scan_lines ("a").data 0 ([("x\n").data] ++ ("a\n").data :: [("a:0\n").data]) = false :=
  C10_is_installed_amended.2.2 (("a").data) 0 [("x\n").data] (("a\n").data)
    [("a:0\n").data] (by decide) (by decide)
